import Mathlib

/-!
# Footlights demo (`fl-demo/src/App.js`)

A shallow embedding of the demo component: the style values it builds, the
calls it makes on the wasm engine, the `withWasm` promise chain and the
component state `str`.  The engine itself (`footlights-wasm`) is not part of
the sources; where a statement needs its behaviour it is modelled from the
specification and marked as such.
-/

namespace Footlights

/-! ## Data model -/

/-- Opaque image handle: whatever the bundler binds to `logo` (App.js line 1). -/
abbrev ImageRef := String

/-- A gradient stop as written in App.js: the two-element array
`[color text, position text]`. -/
abbrev Stop := String × String

/-- The value assigned to a style's `color` attribute.  App.js only builds the
`Linear` variant (`{ Linear: { stops, degree } }`); `Solid` is the other variant
named by the data model. -/
inductive Color where
  | Solid (text : String)
  | Linear (stops : List Stop) (degree : Int)
  deriving DecidableEq

/-- A style object: the attributes App.js assigns by name (`color`, `image`,
`round`), each optional. -/
structure Style where
  color : Option Color
  image : Option ImageRef
  round : Option Int
  deriving DecidableEq

/-- Modelled from the spec: `new_style` of `footlights-wasm` is not in the
sources; a fresh style has every attribute unset (all attributes are
independently optional, a style need not set every attribute). -/
def new_style : Style := { color := none, image := none, round := none }

/-! ## The literals of App.js -/

/-- The `stops` array literal, App.js lines 27-83, in declaration order. -/
def bgStops : List Stop :=
  [ ("hsl(240 46% 65%)", "0%"),
    ("hsl(259 43% 64%)", "10%"),
    ("hsl(295 34% 63%)", "22%"),
    ("hsl(313 39% 65%)", "27%"),
    ("hsl(325 48% 68%)", "32%"),
    ("hsl(335 55% 70%)", "36%"),
    ("hsl(343 60% 73%)", "41%"),
    ("hsl(351 64% 75%)", "45%"),
    ("hsl(359 66% 77%)", "49%"),
    ("hsl(6 68% 77%)", "53%"),
    ("hsl(12 69% 77%)", "58%"),
    ("hsl(18 68% 78%)", "62%"),
    ("hsl(23 65% 78%)", "67%"),
    ("hsl(28 62% 78%)", "72%"),
    ("hsl(33 57% 79%)", "77%"),
    ("hsl(39 51% 81%)", "83%"),
    ("hsl(46 44% 82%)", "91%"),
    ("hsl(56 37% 89%)", "100%") ]

/-- The two comment lines written above each stop (App.js lines 28-80): the
text that follows `//` on each line, trailing blanks included. -/
def stopComments : List (String × String) :=
  [ (" - - hsl(240 46% 65%)", "   - 0%"),
    (" - - hsl(259 43% 64%)", "   - 10%"),
    (" - - hsl(295 34% 63%)", "   - 22%"),
    (" - - hsl(313 39% 65%)", "   - 27%"),
    (" - - hsl(325 48% 68%)", "   - 32%"),
    (" - - hsl(335 55% 70%)", "   - 36%"),
    (" - - hsl(343 60% 73%) ", "   - 41%"),
    (" - - hsl(351 64% 75%) ", "   - 45%"),
    (" - - hsl(359 66% 77%) ", "   - 49%"),
    (" - - hsl(6 68% 77%) ", "   - 53%"),
    (" - - hsl(12 69% 77%) ", "   - 58%"),
    (" - - hsl(18 68% 78%) ", "   - 62%"),
    (" - - hsl(23 65% 78%) ", "   - 67%"),
    (" - - hsl(28 62% 78%) ", "   - 72%"),
    (" - - hsl(33 57% 79%) ", "   - 77%"),
    (" - - hsl(39 51% 81%) ", "   - 83%"),
    (" - - hsl(46 44% 82%) ", "   - 91%"),
    (" - - hsl(56 37% 84%) ", "   - 100%") ]

/-- The value of `bg` when it is registered: `new_style()` followed by the
assignment `bg.color = { Linear: { stops: [...], degree: 35 } }`
(App.js lines 19, 25-86). -/
def demoBg : Style :=
  let bg := new_style
  { bg with color := some (Color.Linear bgStops 35) }

/-- The value of `img` when it is registered: `new_style()` followed by
`img.image = logo` and `img.round = 20` (App.js lines 20-23). -/
def demoImg (logo : ImageRef) : Style :=
  let img := new_style
  let img := { img with image := some logo }
  { img with round := some 20 }

/-! ## Reading positions and comments -/

/-- Value of a run of decimal digits, most significant first; `none` on any
other character. -/
def digitsValue : List Char → Nat → Option Nat
  | [], acc => some acc
  | c :: cs, acc =>
    if 48 ≤ c.toNat ∧ c.toNat ≤ 57 then digitsValue cs (10 * acc + (c.toNat - 48)) else none

/-- A position text such as `"27%"` read as the integer before its `%` sign. -/
def percentValue (s : String) : Option Nat :=
  match s.toList.reverse with
  | '%' :: rest => if rest = [] then none else digitsValue rest.reverse 0
  | _ => none

/-- Surrounding blanks removed. -/
def trimChars (cs : List Char) : List Char :=
  ((cs.dropWhile (fun c => c.isWhitespace)).reverse.dropWhile (fun c => c.isWhitespace)).reverse

/-- The datum a comment line documents: the list markers (`-` and blanks) in
front are dropped and the rest is trimmed. -/
def commentDatum (line : String) : String :=
  String.mk (trimChars (line.toList.dropWhile (fun c => c = '-' ∨ c.isWhitespace)))

/-- The (color, position) pair documented by the two comment lines of a stop. -/
def documentedStop (c : String × String) : Stop :=
  (commentDatum c.1, commentDatum c.2)

/-- A stop of the array with both components trimmed. -/
def trimStop (st : Stop) : Stop :=
  (String.mk (trimChars st.1.toList), String.mk (trimChars st.2.toList))

/-- Whether a stop's position text reads as a percentage in 0..100. -/
def validPosition (st : Stop) : Bool :=
  match percentValue st.2 with
  | some p => decide (p ≤ 100)
  | none => false

/-- Two position readings in non-decreasing order (both must read). -/
def positionsLe : Option Nat → Option Nat → Prop
  | some a, some b => a ≤ b
  | _, _ => False

instance positionsLe.instDecidable (a b : Option Nat) : Decidable (positionsLe a b) :=
  match a, b with
  | some x, some y => inferInstanceAs (Decidable (x ≤ y))
  | some _, none => isFalse (fun h => h)
  | none, _ => isFalse (fun h => by cases b <;> exact h)

/-- Modelled from the spec: the failures of gradient construction. -/
inductive GradientError where
  | EmptyGradient
  | InvalidStopPosition
  | MalformedColor
  deriving DecidableEq

/-- Modelled from the spec: the checks of gradient construction on stop count
and position, which `footlights-wasm` (not in the sources) performs: an empty
sequence fails with `EmptyGradient`, a percentage outside 0..100 with
`InvalidStopPosition`.  (The check of each stop's color text is not part of
this definition.) -/
def checkStops (stops : List Stop) : Except GradientError Unit :=
  if stops = [] then Except.error GradientError.EmptyGradient
  else if stops.all validPosition then Except.ok ()
  else Except.error GradientError.InvalidStopPosition

/-! ## The engine interface the demo calls -/

/-- The part of `footlights-wasm` the effect body calls on an engine: the
constructor `new Engine()`, `add_style` and `render`.  The package is not in
the sources, so the demo is embedded over an arbitrary implementation; `E` is
the engine's state and a `render` that throws is an `Except.error`. -/
structure Wasm (E ε : Type) where
  newEngine : E
  add_style : E → String → Style → E
  render : E → Except ε String

/-- What the effect body does to the outside, in program order. -/
inductive Call (E : Type) where
  | engineNew
  | newStyle
  | consoleLogStyle (style : Style)
  | addStyle (name : String) (style : Style)
  | render (engine : E)
  | consoleLogStr (s : String)
  | setStr (s : String)
  deriving DecidableEq

/-- The component as the effect sees it: the React state `str`
(`useState(null)`, App.js line 13) and the calls made so far. -/
structure AppState (E : Type) where
  str : Option String
  calls : List (Call E)

/-- Record one call. -/
def AppState.emit {E : Type} (σ : AppState E) (c : Call E) : AppState E :=
  { σ with calls := σ.calls ++ [c] }

/-- The callback handed to `withWasm` (App.js lines 16-96), statement by
statement.  The engine and both styles are locals created in the callback;
the only thing read from outside is `logo`.  A throwing `render` leaves the
callback before `setStr`. -/
def appFn {E ε : Type} (w : Wasm E ε) (logo : ImageRef) (σ : AppState E) : AppState E :=
  let σ := σ.emit Call.engineNew
  let engine := w.newEngine
  let σ := σ.emit Call.newStyle
  let bg := new_style
  let σ := σ.emit Call.newStyle
  let img := new_style
  let img := { img with image := some logo }
  let img := { img with round := some 20 }
  let bg := { bg with color := some (Color.Linear bgStops 35) }
  let σ := σ.emit (Call.consoleLogStyle bg)
  let σ := σ.emit (Call.addStyle "bg" bg)
  let engine := w.add_style engine "bg" bg
  let σ := σ.emit (Call.addStyle "img" img)
  let engine := w.add_style engine "img" img
  let σ := σ.emit (Call.render engine)
  match w.render engine with
  | Except.error _ => σ
  | Except.ok str =>
    let σ := σ.emit (Call.consoleLogStr str)
    let σ := σ.emit (Call.setStr str)
    { σ with str := some str }

/-- The engine state the demo hands to `render`. -/
def demoEngine {E ε : Type} (w : Wasm E ε) (logo : ImageRef) : E :=
  w.add_style (w.add_style w.newEngine "bg" demoBg) "img" (demoImg logo)

/-- The `add_style` calls among a list of calls, as (name, style) pairs. -/
def addStyleCalls {E : Type} : List (Call E) → List (String × Style)
  | [] => []
  | Call.addStyle n s :: cs => (n, s) :: addStyleCalls cs
  | _ :: cs => addStyleCalls cs

/-- The engine states passed to `render` among a list of calls. -/
def renderCalls {E : Type} : List (Call E) → List E
  | [] => []
  | Call.render e :: cs => e :: renderCalls cs
  | _ :: cs => renderCalls cs

/-- The values passed to `setStr` among a list of calls. -/
def setStrCalls {E : Type} : List (Call E) → List String
  | [] => []
  | Call.setStr s :: cs => s :: setStrCalls cs
  | _ :: cs => setStrCalls cs

/-! ## `withWasm` and the promise returned by `init()` -/

/-- State of the promise returned by `init()`. -/
inductive PromiseState where
  | pending
  | fulfilled
  | rejected
  deriving DecidableEq

/-- What is observed of one `withWasm` call, in time order. -/
inductive LoopEvent where
  | initCalled
  | initFulfilled
  | initRejected
  | withWasmReturned
  | fnCalled
  deriving DecidableEq

/-- What the host may do after `withWasm` has returned. -/
inductive HostStep where
  | resolveInit
  | rejectInit
  | runJob
  deriving DecidableEq

/-- One `withWasm` call in flight: the promise of `init()`, whether the
`.then` callback is registered on it as a fulfilment reaction, the number of
queued jobs that will run the callback, the observed events, and the state
`fn` acts on. -/
structure Loop (W : Type) where
  promise : PromiseState
  reaction : Bool
  jobs : Nat
  log : List LoopEvent
  world : W

/-- The synchronous part of `withWasm(fn)` (App.js lines 6-10): `init()` is
called and returns a promise in state `p`; `.then` registers the callback on a
pending promise, queues a job for it on a fulfilled one, and drops it on a
rejected one (no rejection handler is passed); then `withWasm` returns. -/
def withWasm {W : Type} (p : PromiseState) (w0 : W) : Loop W :=
  let log := [LoopEvent.initCalled]
  let log := match p with
    | PromiseState.pending => log
    | PromiseState.fulfilled => log ++ [LoopEvent.initFulfilled]
    | PromiseState.rejected => log ++ [LoopEvent.initRejected]
  let reaction := decide (p = PromiseState.pending)
  let jobs := if p = PromiseState.fulfilled then 1 else 0
  { promise := p, reaction := reaction, jobs := jobs,
    log := log ++ [LoopEvent.withWasmReturned], world := w0 }

/-- One host step.  A promise settles at most once; fulfilment moves the
registered reaction to the job queue, rejection discards it; running a job
runs the callback `() => { fn(); }`. -/
def Loop.step {W : Type} (fn : W → W) (L : Loop W) : HostStep → Loop W
  | HostStep.resolveInit =>
    if L.promise = PromiseState.pending then
      { L with promise := PromiseState.fulfilled, reaction := false,
               jobs := if L.reaction then L.jobs + 1 else L.jobs,
               log := L.log ++ [LoopEvent.initFulfilled] }
    else L
  | HostStep.rejectInit =>
    if L.promise = PromiseState.pending then
      { L with promise := PromiseState.rejected, reaction := false,
               log := L.log ++ [LoopEvent.initRejected] }
    else L
  | HostStep.runJob =>
    if 0 < L.jobs then
      { L with jobs := L.jobs - 1, log := L.log ++ [LoopEvent.fnCalled], world := fn L.world }
    else L

/-- The host steps of a schedule, in order. -/
def Loop.run {W : Type} (fn : W → W) (L : Loop W) (sched : List HostStep) : Loop W :=
  sched.foldl (Loop.step fn) L

/-- One run of the effect (App.js lines 15-97): `withWasm` is called with
the callback, then the host follows `sched`. -/
def runEffect {E ε : Type} (w : Wasm E ε) (logo : ImageRef) (p : PromiseState)
    (sched : List HostStep) (σ : AppState E) : Loop (AppState E) :=
  Loop.run (appFn w logo) (withWasm p σ) sched

/-! ## The engine, modelled from the specification -/

/-- Modelled from the spec: the registry of `footlights-wasm`, which is not in
the sources: an ordered mapping from style name to style, insertion order
preserved. -/
abbrev Registry := List (String × Style)

/-- Modelled from the spec: the registry is created empty at engine
construction. -/
def Registry.empty : Registry := []

/-- Modelled from the spec: `add_style(name, style)` inserts or replaces the
entry for `name` and keeps the original insertion position if `name` already
existed. -/
def Registry.add_style (r : Registry) (name : String) (style : Style) : Registry :=
  if r.any (fun e => e.1 == name) then
    r.map (fun e => if e.1 = name then (name, style) else e)
  else r ++ [(name, style)]

/-- Modelled from the spec: `remove_style(name)` removes the entry if present
and is a no-op if absent. -/
def Registry.remove_style (r : Registry) (name : String) : Registry :=
  r.filter (fun e => e.1 != name)

/-- Modelled from the spec: `get_style(name)` is a read-only lookup. -/
def Registry.get_style (r : Registry) (name : String) : Option Style :=
  (r.find? (fun e => e.1 == name)).map (fun e => e.2)

/-- The names of a registry, in order. -/
def Registry.names (r : Registry) : List String := r.map (fun e => e.1)

/-- Modelled from the spec: the only failure of `render`. -/
inductive RenderError where
  | UnresolvedReference (name : String)
  deriving DecidableEq

/-- The concrete text of each kind of declaration, which the specification
leaves open: a flat color declaration, a gradient declaration from its rendered
stops and angle, the token of an image handle (`none` when it cannot be
resolved), a rounding declaration in pixels, and the fragment of a named style
from its declarations. -/
structure Markup where
  solid : String → String
  gradient : List String → Int → String
  image : ImageRef → Option String
  rounding : Int → String
  fragment : String → List String → String

/-- Modelled from the spec: a color declaration; a gradient lists its stops in
stored order, each as the color followed by its position, then the angle,
taken modulo 360. -/
def Markup.colorDecl (m : Markup) : Color → String
  | Color.Solid text => m.solid text
  | Color.Linear stops degree =>
    m.gradient (stops.map (fun st => st.1 ++ " " ++ st.2)) (degree % 360)

/-- Modelled from the spec: the fragment of one style; an attribute that is
unset contributes nothing, an image handle that cannot be resolved fails the
render with `UnresolvedReference`. -/
def Markup.styleFragment (m : Markup) (name : String) (s : Style) : Except RenderError String :=
  let color := match s.color with
    | some c => [m.colorDecl c]
    | none => []
  let round := match s.round with
    | some px => [m.rounding px]
    | none => []
  match s.image with
  | none => Except.ok (m.fragment name (color ++ round))
  | some ref =>
    match m.image ref with
    | some tok => Except.ok (m.fragment name (color ++ [tok] ++ round))
    | none => Except.error (RenderError.UnresolvedReference name)

/-- Modelled from the spec: the fragments of the styles in insertion order;
the first failure is propagated. -/
def Markup.fragments (m : Markup) : Registry → Except RenderError (List String)
  | [] => Except.ok []
  | (name, s) :: rest =>
    match m.styleFragment name s with
    | Except.error e => Except.error e
    | Except.ok f =>
      match m.fragments rest with
      | Except.error e => Except.error e
      | Except.ok fs => Except.ok (f :: fs)

/-- Modelled from the spec: `render(registry)`, a single string made of the
fragments in insertion order. -/
def Markup.renderRegistry (m : Markup) (r : Registry) : Except RenderError String :=
  match m.fragments r with
  | Except.error e => Except.error e
  | Except.ok fs => Except.ok (String.join fs)

/-- Modelled from the spec: an engine instance; its entire state is the
registry. -/
structure Engine where
  styles : Registry
  deriving DecidableEq

/-- Modelled from the spec: engine construction. -/
def Engine.new : Engine := { styles := Registry.empty }

/-- Modelled from the spec: the method `add_style`, returning the engine
afterwards. -/
def Engine.add_style (e : Engine) (name : String) (style : Style) : Engine :=
  { e with styles := e.styles.add_style name style }

/-- Modelled from the spec: the method `remove_style`, returning the engine
afterwards. -/
def Engine.remove_style (e : Engine) (name : String) : Engine :=
  { e with styles := e.styles.remove_style name }

/-- Modelled from the spec: the method `render`, returning the result and the
engine afterwards; `render` is a pure read and does not mutate the registry. -/
def Engine.render (m : Markup) (e : Engine) : Except RenderError String × Engine :=
  (m.renderRegistry e.styles, e)

/-- The engine of the specification as an implementation of the interface the
demo calls. -/
def specWasm (m : Markup) : Wasm Engine RenderError :=
  { newEngine := Engine.new
    add_style := Engine.add_style
    render := fun e => (Engine.render m e).1 }

/-- A concrete markup on which `render` can be evaluated: every declaration
is the bare text of its datum and a fragment is the style name followed by
its declarations. -/
def plainMarkup : Markup :=
  { solid := fun text => text
    gradient := fun stops angle => String.join stops ++ toString angle
    image := fun ref => some ref
    rounding := fun px => toString px
    fragment := fun name decls => name ++ String.join decls }

/-- The states one `withWasm` call passes through, for the callback `fn` and
the state `w0` it was started in: waiting for `init()`, callback queued,
callback run, or `init()` rejected; in each case `init()` may have settled
before or after `withWasm` returned. -/
def Loop.Reachable {W : Type} (fn : W → W) (w0 : W) (L : Loop W) : Prop :=
  L = ⟨PromiseState.pending, true, 0,
        [LoopEvent.initCalled, LoopEvent.withWasmReturned], w0⟩ ∨
  L = ⟨PromiseState.fulfilled, false, 1,
        [LoopEvent.initCalled, LoopEvent.initFulfilled, LoopEvent.withWasmReturned], w0⟩ ∨
  L = ⟨PromiseState.fulfilled, false, 1,
        [LoopEvent.initCalled, LoopEvent.withWasmReturned, LoopEvent.initFulfilled], w0⟩ ∨
  L = ⟨PromiseState.fulfilled, false, 0,
        [LoopEvent.initCalled, LoopEvent.initFulfilled, LoopEvent.withWasmReturned,
         LoopEvent.fnCalled], fn w0⟩ ∨
  L = ⟨PromiseState.fulfilled, false, 0,
        [LoopEvent.initCalled, LoopEvent.withWasmReturned, LoopEvent.initFulfilled,
         LoopEvent.fnCalled], fn w0⟩ ∨
  L = ⟨PromiseState.rejected, false, 0,
        [LoopEvent.initCalled, LoopEvent.initRejected, LoopEvent.withWasmReturned], w0⟩ ∨
  L = ⟨PromiseState.rejected, false, 0,
        [LoopEvent.initCalled, LoopEvent.withWasmReturned, LoopEvent.initRejected], w0⟩

/-! ## The styles the demo registers -/

/-- C2 (as stated, refuted): the color of the style registered under "bg" is
not the two-stop gradient of the end-to-end example. -/
theorem demoBg_color_ne_two_stops :
    demoBg.color ≠ some (Color.Linear
      [("hsl(240 46% 65%)", "0%"), ("hsl(56 37% 89%)", "100%")] 35) := by
  decide

/-- The calls of one run of the callback: always the same seven, followed by
`console.log(str)` and `setStr(str)` when `render` returns. -/
theorem appFn_calls {E ε : Type} (w : Wasm E ε) (logo : ImageRef) (σ : AppState E) :
    (appFn w logo σ).calls = σ.calls ++
      ([Call.engineNew, Call.newStyle, Call.newStyle, Call.consoleLogStyle demoBg,
        Call.addStyle "bg" demoBg, Call.addStyle "img" (demoImg logo),
        Call.render (demoEngine w logo)] ++
       (match w.render (demoEngine w logo) with
        | Except.ok str => [Call.consoleLogStr str, Call.setStr str]
        | Except.error _ => [])) := by
  unfold appFn
  simp only [AppState.emit, demoEngine, demoBg, demoImg]
  cases w.render _ <;> simp

/-- The state `str` after one run of the callback: the rendered string, or
the old value when `render` throws. -/
theorem appFn_str {E ε : Type} (w : Wasm E ε) (logo : ImageRef) (σ : AppState E) :
    (appFn w logo σ).str =
      (match w.render (demoEngine w logo) with
       | Except.ok str => some str
       | Except.error _ => σ.str) := by
  unfold appFn
  simp only [AppState.emit, demoEngine, demoBg, demoImg]
  cases w.render _ <;> simp

/-- C2 (amended): the style registered under "bg" has a Linear color with the
18 stops of the array in declaration order, the first being
("hsl(240 46% 65%)", "0%") and the last ("hsl(56 37% 89%)", "100%"), its angle
is 35, and it sets no image and no corner radius; this is the style the effect
body passes to `add_style("bg", _)` for every engine implementation. -/
theorem demoBg_eighteen_stops {E ε : Type} (w : Wasm E ε) (logo : ImageRef) :
    demoBg.color = some (Color.Linear bgStops 35) ∧
    bgStops.length = 18 ∧
    bgStops.head? = some ("hsl(240 46% 65%)", "0%") ∧
    bgStops.getLast? = some ("hsl(56 37% 89%)", "100%") ∧
    demoBg.image = none ∧ demoBg.round = none ∧
    (addStyleCalls (appFn w logo { str := none, calls := [] }).calls).lookup "bg"
      = some demoBg := by
  refine ⟨rfl, rfl, rfl, rfl, rfl, rfl, ?_⟩
  rw [appFn_calls]
  cases w.render (demoEngine w logo) <;> simp [addStyleCalls, List.lookup]

/-- C3: the style registered under "img" has its image set to the imported
`logo` unchanged, its corner radius set to 20, which is non-negative, and its
color unset; this is the style the effect body passes to `add_style("img", _)`
for every engine implementation. -/
theorem demoImg_attributes {E ε : Type} (w : Wasm E ε) (logo : ImageRef) :
    demoImg logo = { color := none, image := some logo, round := some 20 } ∧
    (∃ px : Int, (demoImg logo).round = some px ∧ 0 ≤ px) ∧
    (addStyleCalls (appFn w logo { str := none, calls := [] }).calls).lookup "img"
      = some (demoImg logo) := by
  refine ⟨rfl, ⟨20, rfl, by decide⟩, ?_⟩
  rw [appFn_calls]
  cases w.render (demoEngine w logo) <;> simp [addStyleCalls, List.lookup]

/-! ## The gradient stops -/

/-- C6: the stop positions of the demo gradient, each read as the integer
before its percent sign, are non-decreasing in declaration order: for indices
i < j both positions read and position(i) ≤ position(j). -/
theorem bgStops_positions_nondecreasing (i j : Fin bgStops.length) (h : i < j) :
    positionsLe (percentValue (bgStops.get i).2) (percentValue (bgStops.get j).2) := by
  revert i j
  decide

/-- C6, at the first and the last stop. -/
theorem bgStops_positions_nondecreasing_witness :
    (⟨0, by decide⟩ : Fin bgStops.length) < ⟨17, by decide⟩ ∧
    positionsLe (percentValue (bgStops.get ⟨0, by decide⟩).2)
      (percentValue (bgStops.get ⟨17, by decide⟩).2) :=
  ⟨by decide, bgStops_positions_nondecreasing ⟨0, by decide⟩ ⟨17, by decide⟩ (by decide)⟩

/-- C7: the demo gradient passes the construction checks on stop count and
position: the stop list is non-empty, every position reads as a percentage in
0..100, the first stop is at 0 and the last at 100; a stop at 101 is what the
check rejects. -/
theorem bgStops_pass_checks :
    checkStops bgStops = Except.ok () ∧
    bgStops ≠ [] ∧
    bgStops.all validPosition = true ∧
    bgStops.head?.map (fun st => percentValue st.2) = some (some 0) ∧
    bgStops.getLast?.map (fun st => percentValue st.2) = some (some 100) ∧
    checkStops [] = Except.error GradientError.EmptyGradient ∧
    checkStops [("hsl(56 37% 89%)", "101%")] = Except.error GradientError.InvalidStopPosition := by
  have hall : bgStops.all validPosition = true := by decide
  have hne : bgStops ≠ [] := by decide
  have hbad : [("hsl(56 37% 89%)", "101%")].all validPosition = false := by decide
  refine ⟨?_, hne, hall, by decide, by decide, rfl, ?_⟩
  · simp [checkStops, hne, hall]
  · simp [checkStops, hbad]

/-- C8 (the code departs from its comments): the last stop of the array is
("hsl(56 37% 89%)", "100%") while the two comment lines above it document
("hsl(56 37% 84%)", "100%"); the other seventeen stops equal their documented
pairs after trimming. -/
theorem last_stop_differs_from_comment :
    (stopComments.map documentedStop).getLast? = some ("hsl(56 37% 84%)", "100%") ∧
    (bgStops.map trimStop).getLast? = some ("hsl(56 37% 89%)", "100%") ∧
    (stopComments.map documentedStop)[17]? ≠ (bgStops.map trimStop)[17]? ∧
    (stopComments.map documentedStop).take 17 = (bgStops.map trimStop).take 17 := by
  decide

/-! ## The registry -/

/-- A name that is present is found by the presence test of `add_style`. -/
theorem Registry.any_of_mem_names (r : Registry) (name : String) (h : name ∈ r.names) :
    r.any (fun e => e.1 == name) = true := by
  simp only [Registry.names, List.mem_map] at h
  obtain ⟨e, he, rfl⟩ := h
  exact List.any_eq_true.mpr ⟨e, he, by simp⟩

/-- Replacing in place keeps every name where it is. -/
theorem Registry.names_replace (r : Registry) (name : String) (style : Style) :
    (r.map (fun e => if e.1 = name then (name, style) else e)).map (fun e => e.1)
      = r.map (fun e => e.1) := by
  induction r with
  | nil => rfl
  | cons e r ih =>
    simp only [List.map_cons, ih]
    by_cases h : e.1 = name <;> simp [h]

/-- Lookup after replacing in place. -/
theorem Registry.find_replace (r : Registry) (name n : String) (style : Style) :
    ((r.map (fun e => if e.1 = name then (name, style) else e)).find?
        (fun e => e.1 == n)).map (fun e => e.2)
      = if n = name then (if name ∈ r.map (fun e => e.1) then some style else none)
        else (r.find? (fun e => e.1 == n)).map (fun e => e.2) := by
  induction r with
  | nil => simp
  | cons e r ih =>
    obtain ⟨k, v⟩ := e
    rw [List.map_cons, List.find?_cons, List.find?_cons]
    by_cases hk : k = name
    · subst hk
      by_cases hn : n = k
      · subst hn
        simp
      · have h1 : (k == n) = false := by simpa using fun h : k = n => hn h.symm
        simp only [if_true, h1, hn, if_false] at ih ⊢
        exact ih
    · simp only [hk, if_false]
      by_cases h4 : k = n
      · subst h4
        simp [hk]
      · have h1 : (k == n) = false := by simpa using h4
        simp only [h1]
        rw [ih]
        by_cases hn : n = name
        · subst hn
          have he2 : ¬ n = k := fun h => hk h.symm
          simp only [if_true, List.map_cons, List.mem_cons, he2, false_or]
        · simp only [hn, if_false]

/-- The render of a two-entry registry: the first fragment followed by the
second, the first failure propagated. -/
theorem Markup.renderRegistry_pair (m : Markup) (n1 n2 : String) (s1 s2 : Style) :
    m.renderRegistry [(n1, s1), (n2, s2)] =
      (match m.styleFragment n1 s1 with
       | Except.error e => Except.error e
       | Except.ok f1 =>
         match m.styleFragment n2 s2 with
         | Except.error e => Except.error e
         | Except.ok f2 => Except.ok (f1 ++ f2)) := by
  unfold Markup.renderRegistry
  simp only [Markup.fragments]
  cases m.styleFragment n1 s1 <;> cases m.styleFragment n2 s2 <;> simp [String.join]

/-- C1: on a newly constructed engine the effect body makes exactly two
`add_style` calls, "bg" then "img" (two distinct names), and exactly one
`render` call, after both; with the registry an insertion-ordered mapping
that starts empty, `render` reads the two-entry registry
[("bg", bg), ("img", img)]. -/
theorem demo_calls_and_registry {E ε : Type} (w : Wasm E ε) (m : Markup) (logo : ImageRef) :
    (appFn w logo { str := none, calls := [] }).calls.take 7 =
      [Call.engineNew, Call.newStyle, Call.newStyle, Call.consoleLogStyle demoBg,
       Call.addStyle "bg" demoBg, Call.addStyle "img" (demoImg logo),
       Call.render (w.add_style (w.add_style w.newEngine "bg" demoBg) "img" (demoImg logo))] ∧
    addStyleCalls (appFn w logo { str := none, calls := [] }).calls =
      [("bg", demoBg), ("img", demoImg logo)] ∧
    renderCalls (appFn w logo { str := none, calls := [] }).calls = [demoEngine w logo] ∧
    "bg" ≠ "img" ∧
    renderCalls (appFn (specWasm m) logo { str := none, calls := [] }).calls =
      [{ styles := [("bg", demoBg), ("img", demoImg logo)] }] := by
  have hspec : demoEngine (specWasm m) logo
      = { styles := [("bg", demoBg), ("img", demoImg logo)] } := by
    simp [demoEngine, specWasm, Engine.new, Engine.add_style, Registry.add_style, Registry.empty]
  refine ⟨?_, ?_, ?_, by decide, ?_⟩
  · rw [appFn_calls]; simp [demoEngine]
  · rw [appFn_calls]
    cases w.render (demoEngine w logo) <;> simp [addStyleCalls]
  · rw [appFn_calls]
    cases w.render (demoEngine w logo) <;> simp [renderCalls]
  · rw [appFn_calls, hspec]
    cases (specWasm m).render _ <;> simp [renderCalls]

/-- C5: `add_style` keeps the original position on replacement: for a name
already present only the style stored under it changes and the order of names
is unchanged; after add_style("a", s1), add_style("b", s2), add_style("a", s3)
the registry is [("a", s3), ("b", s2)], and the render output is the fragment
of "a" followed by the fragment of "b". -/
theorem add_style_replace_keeps_position (r : Registry) (name : String) (s' : Style)
    (m : Markup) (s1 s2 s3 : Style) (h : name ∈ r.names) :
    (r.add_style name s').names = r.names ∧
    (r.add_style name s').get_style name = some s' ∧
    (∀ n, n ≠ name → (r.add_style name s').get_style n = r.get_style n) ∧
    (((Engine.new.add_style "a" s1).add_style "b" s2).add_style "a" s3).styles
      = [("a", s3), ("b", s2)] ∧
    (Engine.render m (((Engine.new.add_style "a" s1).add_style "b" s2).add_style "a" s3)).1
      = (match m.styleFragment "a" s3 with
         | Except.error e => Except.error e
         | Except.ok fa =>
           match m.styleFragment "b" s2 with
           | Except.error e => Except.error e
           | Except.ok fb => Except.ok (fa ++ fb)) := by
  have hany := Registry.any_of_mem_names r name h
  have hex : (((Engine.new.add_style "a" s1).add_style "b" s2).add_style "a" s3).styles
      = [("a", s3), ("b", s2)] := by
    simp [Engine.new, Engine.add_style, Registry.add_style, Registry.empty]
  refine ⟨?_, ?_, ?_, hex, ?_⟩
  · simp only [Registry.add_style, hany, if_true, Registry.names]
    exact Registry.names_replace r name s'
  · simp only [Registry.add_style, hany, if_true, Registry.get_style]
    rw [Registry.find_replace]
    have h' : name ∈ r.map (fun e => e.1) := h
    simp [h']
  · intro n hn
    simp only [Registry.add_style, hany, if_true, Registry.get_style]
    rw [Registry.find_replace]
    simp [hn]
  · simp only [Engine.render, hex]
    exact Markup.renderRegistry_pair m "a" "b" s3 s2

/-- C5 on the registry of the demo: re-registering "bg" leaves the names in
the order "bg", "img". -/
theorem add_style_replace_keeps_position_witness :
    "bg" ∈ Registry.names [("bg", demoBg), ("img", demoImg "logo.svg")] ∧
    (Registry.add_style [("bg", demoBg), ("img", demoImg "logo.svg")] "bg" new_style).names
      = Registry.names [("bg", demoBg), ("img", demoImg "logo.svg")] :=
  ⟨by decide,
   (add_style_replace_keeps_position [("bg", demoBg), ("img", demoImg "logo.svg")] "bg"
      new_style plainMarkup new_style new_style new_style (by decide)).1⟩

/-! ## `withWasm` -/

/-- The state `withWasm` returns in is one of the listed states. -/
theorem Loop.reachable_withWasm {W : Type} (fn : W → W) (p : PromiseState) (w0 : W) :
    Loop.Reachable fn w0 (withWasm p w0) := by
  cases p <;> simp [Loop.Reachable, withWasm]

/-- A host step leads from a listed state to a listed state. -/
theorem Loop.reachable_step {W : Type} (fn : W → W) (w0 : W) (L : Loop W) (t : HostStep)
    (h : Loop.Reachable fn w0 L) : Loop.Reachable fn w0 (Loop.step fn L t) := by
  rcases h with h | h | h | h | h | h | h <;> subst h <;> cases t <;>
    simp [Loop.Reachable, Loop.step]

/-- Every schedule keeps the call within the listed states. -/
theorem Loop.reachable_run {W : Type} (fn : W → W) (w0 : W) (sched : List HostStep) :
    ∀ L : Loop W, Loop.Reachable fn w0 L → Loop.Reachable fn w0 (Loop.run fn L sched) := by
  induction sched with
  | nil => intro L h; exact h
  | cons t ts ih =>
    intro L h
    exact ih (Loop.step fn L t) (Loop.reachable_step fn w0 L t h)

/-- What holds in each listed state: the callback has run at most once; it
has not run and the state is untouched, or it ran once, last, after `init()`
was fulfilled and `withWasm` had returned. -/
theorem Loop.reachable_facts {W : Type} (fn : W → W) (w0 : W) (L : Loop W)
    (h : Loop.Reachable fn w0 L) :
    L.log.count LoopEvent.fnCalled ≤ 1 ∧
    ((LoopEvent.fnCalled ∉ L.log ∧ L.world = w0) ∨
     (∃ pre, L.log = pre ++ [LoopEvent.fnCalled] ∧ LoopEvent.initCalled ∈ pre ∧
        LoopEvent.initFulfilled ∈ pre ∧ LoopEvent.withWasmReturned ∈ pre ∧
        LoopEvent.fnCalled ∉ pre ∧ L.world = fn w0)) ∧
    (LoopEvent.initFulfilled ∈ L.log ∨ (LoopEvent.fnCalled ∉ L.log ∧ L.world = w0)) := by
  rcases h with h | h | h | h | h | h | h <;> subst h
  · exact ⟨by simp, Or.inl ⟨by simp, rfl⟩, by simp⟩
  · exact ⟨by simp, Or.inl ⟨by simp, rfl⟩, by simp⟩
  · exact ⟨by simp, Or.inl ⟨by simp, rfl⟩, by simp⟩
  · exact ⟨by simp,
      Or.inr ⟨[LoopEvent.initCalled, LoopEvent.initFulfilled, LoopEvent.withWasmReturned],
        rfl, by simp, by simp, by simp, by simp, rfl⟩, by simp⟩
  · exact ⟨by simp,
      Or.inr ⟨[LoopEvent.initCalled, LoopEvent.withWasmReturned, LoopEvent.initFulfilled],
        rfl, by simp, by simp, by simp, by simp, rfl⟩, by simp⟩
  · exact ⟨by simp, Or.inl ⟨by simp, rfl⟩, by simp⟩
  · exact ⟨by simp, Or.inl ⟨by simp, rfl⟩, by simp⟩

/-- C10: `withWasm(fn)` never invokes `fn` before `init()` has completed
successfully: not synchronously inside `withWasm`, at most once under every
schedule, only after `init()` was fulfilled and `withWasm` had returned, and
not at all while `init()` is rejected or unresolved; so the demo makes no
engine call (no `new Engine()`, `add_style` or `render`) before then.  When
`init()` resolves and the queued job runs, `fn` is invoked. -/
theorem withWasm_fn_only_after_init {W E ε : Type} (fn : W → W) (p : PromiseState) (w0 : W)
    (sched : List HostStep) (w : Wasm E ε) (logo : ImageRef) (σ : AppState E) :
    ((withWasm p w0).world = w0 ∧ LoopEvent.fnCalled ∉ (withWasm p w0).log) ∧
    (Loop.run fn (withWasm p w0) sched).log.count LoopEvent.fnCalled ≤ 1 ∧
    ((LoopEvent.fnCalled ∉ (Loop.run fn (withWasm p w0) sched).log ∧
        (Loop.run fn (withWasm p w0) sched).world = w0) ∨
     (∃ pre, (Loop.run fn (withWasm p w0) sched).log = pre ++ [LoopEvent.fnCalled] ∧
        LoopEvent.initCalled ∈ pre ∧ LoopEvent.initFulfilled ∈ pre ∧
        LoopEvent.withWasmReturned ∈ pre ∧ LoopEvent.fnCalled ∉ pre ∧
        (Loop.run fn (withWasm p w0) sched).world = fn w0)) ∧
    (LoopEvent.initFulfilled ∈ (Loop.run fn (withWasm p w0) sched).log ∨
      (LoopEvent.fnCalled ∉ (Loop.run fn (withWasm p w0) sched).log ∧
        (Loop.run fn (withWasm p w0) sched).world = w0)) ∧
    (LoopEvent.initFulfilled ∈ (runEffect w logo p sched σ).log ∨
      (runEffect w logo p sched σ).world.calls = σ.calls) ∧
    (Loop.run fn (withWasm PromiseState.pending w0)
        [HostStep.resolveInit, HostStep.runJob]).world = fn w0 ∧
    (Loop.run fn (withWasm PromiseState.fulfilled w0) [HostStep.runJob]).world = fn w0 := by
  have hf := Loop.reachable_facts fn w0 _
    (Loop.reachable_run fn w0 sched _ (Loop.reachable_withWasm fn p w0))
  have hd := Loop.reachable_facts (appFn w logo) σ _
    (Loop.reachable_run (appFn w logo) σ sched _ (Loop.reachable_withWasm (appFn w logo) p σ))
  refine ⟨⟨rfl, ?_⟩, hf.1, hf.2.1, hf.2.2, ?_, rfl, rfl⟩
  · cases p <;> simp [withWasm]
  · rcases hd.2.2 with h | ⟨_, h⟩
    · exact Or.inl h
    · exact Or.inr (by rw [runEffect, h])

/-! ## The effect -/

/-- C9: the effect step is idempotent on the component state: each run of the
callback builds its engine and styles afresh and makes the same calls whatever
the state it starts in, so the value passed to `setStr` depends on `logo`
(and the engine implementation) only; once a run has completed, every later
run, whatever `init()` does and whenever the host runs it, leaves `str` at
the value it already holds. -/
theorem effect_idempotent {E ε : Type} (w : Wasm E ε) (logo : ImageRef) (σ τ : AppState E)
    (p1 p2 : PromiseState) (s1 s2 : List HostStep)
    (h : LoopEvent.fnCalled ∈ (runEffect w logo p1 s1 σ).log) :
    (appFn w logo τ).calls = τ.calls ++ (appFn w logo { str := none, calls := [] }).calls ∧
    setStrCalls (appFn w logo { str := none, calls := [] }).calls =
      (match w.render (demoEngine w logo) with
       | Except.ok str => [str]
       | Except.error _ => []) ∧
    (runEffect w logo p1 s1 σ).world = appFn w logo σ ∧
    (runEffect w logo p2 s2 (runEffect w logo p1 s1 σ).world).world.str
      = (runEffect w logo p1 s1 σ).world.str ∧
    (appFn w logo (appFn w logo σ)).str = (appFn w logo σ).str := by
  have h1 := (Loop.reachable_facts (appFn w logo) σ _
    (Loop.reachable_run (appFn w logo) σ s1 _
      (Loop.reachable_withWasm (appFn w logo) p1 σ))).2.1
  have hw1 : (runEffect w logo p1 s1 σ).world = appFn w logo σ := by
    rcases h1 with ⟨hno, _⟩ | ⟨_, _, _, _, _, _, hw⟩
    · exact absurd h hno
    · exact hw
  have hidem : ∀ υ : AppState E, (appFn w logo (appFn w logo υ)).str = (appFn w logo υ).str := by
    intro υ
    rw [appFn_str, appFn_str]
    cases w.render (demoEngine w logo) <;> rfl
  have h2 := (Loop.reachable_facts (appFn w logo) (appFn w logo σ) _
    (Loop.reachable_run (appFn w logo) (appFn w logo σ) s2 _
      (Loop.reachable_withWasm (appFn w logo) p2 (appFn w logo σ)))).2.1
  refine ⟨?_, ?_, hw1, ?_, hidem σ⟩
  · rw [appFn_calls, appFn_calls]; simp
  · rw [appFn_calls]
    cases w.render (demoEngine w logo) <;> simp [setStrCalls]
  · rw [hw1]
    rcases h2 with ⟨_, hw⟩ | ⟨_, _, _, _, _, _, hw⟩
    · rw [runEffect, hw]
    · rw [runEffect, hw]; exact hidem σ

/-- C9 on the engine of the specification with the plain markup: a first run
in which `init()` resolves and the job runs, then a second run. -/
theorem effect_idempotent_witness :
    LoopEvent.fnCalled ∈ (runEffect (specWasm plainMarkup) "logo.svg" PromiseState.pending
        [HostStep.resolveInit, HostStep.runJob] { str := none, calls := [] }).log ∧
    (runEffect (specWasm plainMarkup) "logo.svg" PromiseState.fulfilled [HostStep.runJob]
        (runEffect (specWasm plainMarkup) "logo.svg" PromiseState.pending
          [HostStep.resolveInit, HostStep.runJob] { str := none, calls := [] }).world).world.str
      = (runEffect (specWasm plainMarkup) "logo.svg" PromiseState.pending
          [HostStep.resolveInit, HostStep.runJob] { str := none, calls := [] }).world.str :=
  ⟨by decide,
   (effect_idempotent (specWasm plainMarkup) "logo.svg" { str := none, calls := [] }
      { str := none, calls := [] } PromiseState.pending PromiseState.fulfilled
      [HostStep.resolveInit, HostStep.runJob] [HostStep.runJob] (by decide)).2.2.2.1⟩

end Footlights
